import Mathlib

/-!
Verification development for the plan-gist encoder/decoder of
`pkg/sql/opt/exec/explain/plan_gist_factory.go`.

The Go source is shallowly embedded: bytes are `Nat` (values < 256 where
produced by the code), byte buffers are `List Nat`, the 64-bit hash
accumulator is a `Nat` reduced modulo `2 ^ 64`, and fallible/panicking
decode steps return an explicit result type.  Definitions follow the Go
source function by function; helpers from packages outside the excerpt
(the FNV64 hash, Go's `encoding/binary` varints, `errorutil.ShouldCatch`
and the generated per-operator bodies) are modelled from the spec and
marked as such in their doc comments.
-/

namespace PlanGist

/-- Modelled from the spec: the rolling 64-bit hash accumulator
(`util.FNV64`, outside the excerpt).  `Init` seeds the standard 64-bit
FNV-1 offset basis; `Add c` multiplies by the FNV-1 prime and xors in
`c`, all modulo `2 ^ 64`. -/
def fnvInit : Nat := 14695981039346656037

/-- Modelled from the spec: the FNV-1 64-bit prime used by `FNV64.Add`. -/
def fnvPrime : Nat := 1099511628211

/-- Modelled from the spec: one `FNV64.Add` step (`sum *= prime; sum ^= c`),
with the `uint64` overflow made explicit. -/
def fnvAdd (h c : Nat) : Nat := ((h * fnvPrime) % 2 ^ 64) ^^^ c

/-- Feeding a whole byte sequence to the hash, one `Add` per byte; this is
the loop body of `writeHash`. -/
def fnvFold (h : Nat) (data : List Nat) : Nat := data.foldl fnvAdd h

theorem fnvFold_append (h : Nat) (xs ys : List Nat) :
    fnvFold h (xs ++ ys) = fnvFold (fnvFold h xs) ys := by
  simp [fnvFold]

/-- Modelled from the spec: Go `encoding/binary.PutUvarint` byte output —
base-128 little-endian groups, high bit set on every byte but the last. -/
def putUvarint (u : Nat) : List Nat :=
  if h : u < 0x80 then [u]
  else (u % 0x80 + 0x80) :: putUvarint (u / 0x80)
termination_by u
decreasing_by exact Nat.div_lt_self (by omega) (by omega)

/-- Modelled from the spec: the zig-zag step of `binary.PutVarint`
(`ux := uint64(i) << 1; if i < 0 then ux = ^ux`). -/
def zigzag (i : Int) : Nat :=
  if 0 ≤ i then 2 * i.toNat else 2 * (-i).toNat - 1

/-- Modelled from the spec: Go `binary.PutVarint` = zig-zag then unsigned
varint. -/
def putVarint (i : Int) : List Nat := putUvarint (zigzag i)

/-- Decode-side errors raised (via `panic`) by the decode primitives:
end of buffer, varint overflow (both surfaced by `binary.ReadVarint`),
and the generated `decodeOperatorBody` error for an unknown opcode. -/
inductive DecErr where
  | eof : DecErr
  | overflow : DecErr
  | unknownOperator (b : Nat) : DecErr
deriving DecidableEq, Repr

/-- Modelled from the spec: the loop of Go `binary.ReadUvarint`.  `x` and
`s` are the accumulator and shift, `i` the byte counter (at most 10
bytes, and the tenth may only contribute one bit). -/
def readUvarintAux (x s i : Nat) : List Nat → Except DecErr (Nat × List Nat)
  | [] => if i < 10 then .error .eof else .error .overflow
  | b :: rest =>
    if i < 10 then
      if b < 0x80 then
        if i == 9 && b > 1 then .error .overflow
        else .ok (x ||| b <<< s, rest)
      else readUvarintAux (x ||| (b % 0x80) <<< s) (s + 7) (i + 1) rest
    else .error .overflow

/-- Modelled from the spec: Go `binary.ReadUvarint` over a byte list,
returning the value and the unconsumed suffix. -/
def readUvarint (bs : List Nat) : Except DecErr (Nat × List Nat) :=
  readUvarintAux 0 0 0 bs

/-- Modelled from the spec: the inverse zig-zag step of
`binary.ReadVarint` (`x := int64(ux >> 1); if ux&1 != 0 then x = ^x`). -/
def unzigzag (u : Nat) : Int :=
  if u % 2 = 0 then (u / 2 : Nat) else -(u / 2 : Nat) - 1

/-- Modelled from the spec: Go `binary.ReadVarint` over a byte list. -/
def readVarint (bs : List Nat) : Except DecErr (Int × List Nat) :=
  match readUvarint bs with
  | .error e => .error e
  | .ok (u, rest) => .ok (unzigzag u, rest)

theorem unzigzag_zigzag (i : Int) : unzigzag (zigzag i) = i := by
  unfold zigzag unzigzag
  by_cases h : 0 ≤ i
  · simp only [h, if_pos]
    have h2 : (2 * i.toNat) % 2 = 0 := by omega
    simp only [h2, if_pos]
    omega
  · simp only [h, if_neg, if_false]
    have h1 : 1 ≤ (-i).toNat := by omega
    have h2 : (2 * (-i).toNat - 1) % 2 = 1 := by omega
    simp only [h2]
    norm_num
    omega

/-- Disjoint bitwise or is addition: when `a` fits below bit `k`,
`a ||| c <<< k` equals `a + c * 2 ^ k`. -/
theorem lor_shiftLeft_eq_add (a c k : Nat) (h : a < 2 ^ k) :
    a ||| c <<< k = a + c * 2 ^ k := by
  apply Nat.eq_of_testBit_eq
  intro i
  rw [Nat.testBit_lor, Nat.testBit_shiftLeft]
  by_cases hik : k ≤ i
  · have ha : a.testBit i = false :=
      Nat.testBit_lt_two_pow (lt_of_lt_of_le h (Nat.pow_le_pow_right (by omega) hik))
    have hq : (a + c * 2 ^ k) / 2 ^ k = c := by
      rw [Nat.add_mul_div_right _ _ (Nat.two_pow_pos k), Nat.div_eq_of_lt h]
      omega
    have hsplit : (a + c * 2 ^ k) / 2 ^ i = c / 2 ^ (i - k) := by
      have h2 : (2 : Nat) ^ i = 2 ^ k * 2 ^ (i - k) := by
        rw [← pow_add]; congr 1; omega
      rw [h2, ← Nat.div_div_eq_div_mul, hq]
    rw [ha, Nat.testBit_to_div_mod, Nat.testBit_to_div_mod, hsplit]
    simp [hik]
  · have hdiv : (a + c * 2 ^ k) / 2 ^ i % 2 = a / 2 ^ i % 2 := by
      have hsplit : c * 2 ^ k = c * 2 ^ (k - i) * 2 ^ i := by
        rw [mul_assoc, ← pow_add]; congr 2; omega
      rw [hsplit, Nat.add_mul_div_right _ _ (Nat.two_pow_pos i)]
      have heven : c * 2 ^ (k - i) % 2 = 0 := by
        have h2 : (2 : Nat) ^ (k - i) = 2 ^ (k - i - 1) * 2 := by
          rw [← pow_succ]; congr 1; omega
        rw [h2, ← mul_assoc]
        simp [Nat.mul_mod_left]
      omega
    rw [Nat.testBit_to_div_mod, Nat.testBit_to_div_mod, Nat.testBit_to_div_mod, hdiv]
    simp [hik]

theorem readUvarintAux_putUvarint (u : Nat) : ∀ (x i : Nat) (rest : List Nat),
    x < 2 ^ (7 * i) → i ≤ 9 → u < 2 ^ (7 * (9 - i) + 1) →
    readUvarintAux x (7 * i) i (putUvarint u ++ rest) =
      .ok (x + u * 2 ^ (7 * i), rest) := by
  induction u using Nat.strong_induction_on with
  | _ u ih =>
    intro x i rest hx hi hu
    by_cases h : u < 0x80
    · rw [putUvarint, dif_pos h]
      have hcond : (i == 9 && decide (u > 1)) = false := by
        by_cases h9 : i = 9
        · subst h9
          norm_num at hu
          simp
          omega
        · simp [h9]
      simp only [List.cons_append, List.nil_append, readUvarintAux]
      rw [if_pos (show i < 10 by omega), if_pos h,
        if_neg (show ¬((i == 9 && decide (u > 1)) = true) by rw [hcond]; simp),
        lor_shiftLeft_eq_add _ _ _ hx]
      rfl
    · rw [putUvarint, dif_neg h]
      simp only [List.cons_append, readUvarintAux]
      rw [if_pos (show i < 10 by omega),
        if_neg (show ¬(u % 0x80 + 0x80 < 0x80) by omega)]
      have hi8 : i ≤ 8 := by
        by_contra h9
        have h9e : i = 9 := by omega
        subst h9e
        norm_num at hu
        omega
      have hmod : (u % 0x80 + 0x80) % 0x80 = u % 0x80 := by omega
      rw [hmod, lor_shiftLeft_eq_add _ _ _ hx,
        show 7 * i + 7 = 7 * (i + 1) by ring]
      have hx2 : x + u % 0x80 * 2 ^ (7 * i) < 2 ^ (7 * (i + 1)) := by
        have hle : u % 0x80 * 2 ^ (7 * i) ≤ 127 * 2 ^ (7 * i) :=
          Nat.mul_le_mul_right _ (by omega)
        calc x + u % 0x80 * 2 ^ (7 * i) < 2 ^ (7 * i) + 127 * 2 ^ (7 * i) :=
              Nat.add_lt_add_of_lt_of_le hx hle
          _ = 2 ^ (7 * (i + 1)) := by
              rw [show 7 * (i + 1) = 7 * i + 7 by ring, pow_add]; ring
      have hu2 : u / 0x80 < 2 ^ (7 * (9 - (i + 1)) + 1) := by
        rw [Nat.div_lt_iff_lt_mul (by omega : (0:Nat) < 0x80)]
        calc u < 2 ^ (7 * (9 - i) + 1) := hu
          _ = 2 ^ (7 * (9 - (i + 1)) + 1) * 0x80 := by
              rw [show (0x80 : Nat) = 2 ^ 7 by norm_num, ← pow_add]
              congr 1
              omega
      have harith : x + u % 0x80 * 2 ^ (7 * i) + u / 0x80 * 2 ^ (7 * (i + 1)) =
          x + u * 2 ^ (7 * i) := by
        rw [show 7 * (i + 1) = 7 * i + 7 by ring, pow_add]
        have hud := Nat.mod_add_div u 0x80
        calc x + u % 0x80 * 2 ^ (7 * i) + u / 0x80 * (2 ^ (7 * i) * 2 ^ 7)
            = x + (u % 0x80 + 0x80 * (u / 0x80)) * 2 ^ (7 * i) := by ring
          _ = x + u * 2 ^ (7 * i) := by rw [hud]
      have hstep := ih (u / 0x80) (Nat.div_lt_self (by omega) (by omega))
        (x + u % 0x80 * 2 ^ (7 * i)) (i + 1) rest hx2 (by omega) hu2
      rw [harith] at hstep
      exact hstep

theorem readUvarint_putUvarint (u : Nat) (rest : List Nat) (hu : u < 2 ^ 64) :
    readUvarint (putUvarint u ++ rest) = .ok (u, rest) := by
  have h := readUvarintAux_putUvarint u 0 0 rest (by norm_num) (by norm_num)
    (by norm_num; omega)
  simpa [readUvarint] using h

theorem readVarint_putVarint (i : Int) (rest : List Nat) (h : zigzag i < 2 ^ 64) :
    readVarint (putVarint i ++ rest) = .ok (i, rest) := by
  rw [readVarint, putVarint, readUvarint_putUvarint _ _ h]
  simp [unzigzag_zigzag]

theorem readUvarintAux_consumes : ∀ (bs : List Nat) (x s i v : Nat)
    (rest : List Nat), readUvarintAux x s i bs = .ok (v, rest) →
    rest.length < bs.length := by
  intro bs
  induction bs with
  | nil =>
    intro x s i v rest hok
    simp only [readUvarintAux] at hok
    split at hok <;> simp at hok
  | cons b t ihb =>
    intro x s i v rest hok
    simp only [readUvarintAux] at hok
    split_ifs at hok
    · rw [Except.ok.injEq, Prod.mk.injEq] at hok
      obtain ⟨-, h2⟩ := hok
      subst h2
      simp only [List.length_cons]
      omega
    · exact Nat.lt_trans (ihb _ _ _ _ _ hok)
        (by simp only [List.length_cons]; omega)

/-- A typed expression inside a literal-values row (`tree.TypedExpr`).
The gist never inspects expression content, so it is an opaque payload;
Go's zero value for a row slice is nil, modelled as `[]`. -/
structure TypedExpr where
  code : Nat
deriving DecidableEq, Repr

/-- One result column (`colinfo.ResultColumn`).  Content is irrelevant to
the gist, which records only the list length; the Go zero value produced
by `make(ResultColumns, n)` is modelled as payload 0. -/
structure ResultColumn where
  info : Nat
deriving DecidableEq, Repr

/-- An `exec.NodeColumnOrdinal` (an integer ordinal; Go zero value 0). -/
abbrev NodeColumnOrdinal := Int

/-- An index of a catalog table as consulted by `decodeIndex`: only its
stable id matters there. -/
structure CatIndex where
  id : Nat
deriving DecidableEq, Repr

/-- A catalog table (`cat.Table`): symbolic name bytes plus indexes. -/
structure CatTable where
  name : List Nat
  indexes : List CatIndex
deriving DecidableEq, Repr

/-- The catalog collaborator (`cat.Catalog.ResolveDataSourceByID`):
`none` exactly when Go reports a non-nil error for the id.  The model
restricts data sources to tables, the only case the decoder's type
assertion `ds.(cat.Table)` accepts. -/
def Catalog := Nat → Option CatTable

/-- The plan operators relevant to this development.  The full generated
enumeration (57 operators) is outside the excerpt; modelled from the
spec are the sentinel `unknownOp` (byte 0), `scanOp`, `valuesOp`,
`sortOp`, and the reserved check opcode `errorIfRowsOp`. -/
inductive execOperator where
  | unknownOp : execOperator
  | scanOp : execOperator
  | valuesOp : execOperator
  | sortOp : execOperator
  | errorIfRowsOp : execOperator
deriving DecidableEq, Repr

/-- Modelled from the spec: the frozen serialized byte of each opcode. -/
def opByte : execOperator → Nat
  | .unknownOp => 0
  | .scanOp => 1
  | .valuesOp => 2
  | .sortOp => 3
  | .errorIfRowsOp => 4

/-- Modelled from the spec: reverse opcode lookup for decode dispatch.
Bytes outside the registry give `none`, which `decodeOperatorBody`
reports as an unknown-operator error. -/
def opOfByte (b : Nat) : Option execOperator :=
  if b = 1 then some .scanOp
  else if b = 2 then some .valuesOp
  else if b = 3 then some .sortOp
  else if b = 4 then some .errorIfRowsOp
  else none

/-- Modelled from the spec: the live cardinality of the generated
operator enumeration (57 operators at the current version). -/
def numOperators : Nat := 57

/-- The `init` guard of the package: it panics exactly when the live
operator count differs from the hard-coded literal 57. -/
def initAborts (n : Nat) : Bool := n != 57

/-- The format version written as the leading varint (`var version = 1`). -/
def version : Int := 1

/-- Conversion `int64(u)` of a `uint64` value (two's complement). -/
def toInt64 (u : Nat) : Int :=
  if u < 2 ^ 63 then (u : Int) else (u : Int) - 2 ^ 64

/-- Conversion `cat.StableID(i)` / `uint64(i)` of a signed value. -/
def toUint64 (i : Int) : Nat := (i % 2 ^ 64).toNat

/-- The encode-side state of `PlanGistFactory`: the output buffer and the
hash accumulator.  The decode-side fields of the same Go struct (read
cursor, node stack, catalog) are modelled separately as `DState`. -/
structure Factory where
  buffer : List Nat
  hash : Nat
deriving DecidableEq, Repr

namespace Factory

/-- `writeHash`: feed each byte of `data` to `FNV64.Add`. -/
def writeHash (f : Factory) (data : List Nat) : Factory :=
  { f with hash := fnvFold f.hash data }

/-- `Write`: append `data` to the buffer, then feed the same bytes to the
hash (the single shared write path). -/
def write (f : Factory) (data : List Nat) : Factory :=
  writeHash { f with buffer := f.buffer ++ data } data

/-- `encodeByte`: one byte through the shared write path. -/
def encodeByte (f : Factory) (b : Nat) : Factory := f.write [b]

/-- `encodeBool`: byte 1 for true, byte 0 for false. -/
def encodeBool (f : Factory) (b : Bool) : Factory :=
  if b then f.encodeByte 1 else f.encodeByte 0

/-- `encodeOperator`: the opcode as a single byte. -/
def encodeOperator (f : Factory) (op : execOperator) : Factory :=
  f.encodeByte (opByte op)

/-- `encodeInt`: `binary.PutVarint` bytes through the shared write path. -/
def encodeInt (f : Factory) (i : Int) : Factory := f.write (putVarint i)

/-- `encodeDataSource`: the one intentional asymmetry — the numeric id
goes (as a varint) to the buffer only, the symbolic name bytes go to the
hash only. -/
def encodeDataSource (f : Factory) (id : Nat) (name : List Nat) : Factory :=
  writeHash { f with buffer := f.buffer ++ putVarint (toInt64 id) } name

/-- `encodeID`: a stable id as a varint through the shared write path. -/
def encodeID (f : Factory) (id : Nat) : Factory := f.encodeInt (toInt64 id)

/-- `encodeNodeColumnOrdinals`: count only. -/
def encodeNodeColumnOrdinals (f : Factory) (vals : List NodeColumnOrdinal) :
    Factory := f.encodeInt (vals.length : Int)

/-- `encodeResultColumns`: count only. -/
def encodeResultColumns (f : Factory) (vals : List ResultColumn) : Factory :=
  f.encodeInt (vals.length : Int)

/-- `encodeRows`: count only. -/
def encodeRows (f : Factory) (rows : List (List TypedExpr)) : Factory :=
  f.encodeInt (rows.length : Int)

/-- `encodeColumnOrdering`: an explicitly unfinished no-op in the source. -/
def encodeColumnOrdering (f : Factory) (_cols : List Nat) : Factory := f

end Factory

/-- `NewPlanGistFactory`: init the hash, then encode the version varint. -/
def newPlanGistFactory : Factory :=
  Factory.encodeInt { buffer := [], hash := fnvInit } version

/-- A referenced table: stable id plus symbolic name bytes. -/
structure TableRef where
  id : Nat
  name : List Nat
deriving DecidableEq, Repr

/-- Modelled from the spec: the generated `ConstructScan` gist step —
opcode byte, then the table reference via the data-source primitive
(spec §8, concrete scenario). -/
def constructScan (f : Factory) (tbl : TableRef) : Factory :=
  (f.encodeOperator .scanOp).encodeDataSource tbl.id tbl.name

/-- Modelled from the spec: the generated `ConstructValues` gist step —
opcode byte, then literal rows and result columns by count only. -/
def constructValues (f : Factory) (rows : List (List TypedExpr))
    (cols : List ResultColumn) : Factory :=
  ((f.encodeOperator .valuesOp).encodeRows rows).encodeResultColumns cols

/-- Modelled from the spec: the generated `ConstructSort` gist step —
opcode byte, then the column ordering (an explicit no-op, spec §9). -/
def constructSort (f : Factory) : Factory :=
  (f.encodeOperator .sortOp).encodeColumnOrdering []

/-- Modelled from the spec: the generated `ConstructErrorIfRows` gist
step — just the reserved opcode byte. -/
def constructErrorIfRows (f : Factory) : Factory :=
  f.encodeOperator .errorIfRowsOp

/-- The shape of a plan tree built through the encode facade, holding
exactly the arguments the gist records. -/
inductive PlanShape where
  | scan (tbl : TableRef) : PlanShape
  | values (rows : List (List TypedExpr)) (cols : List ResultColumn) : PlanShape
  | sort (child : PlanShape) : PlanShape
deriving DecidableEq, Repr

/-- The exec-builder driving the facade bottom-up: children fully encoded
before their parent's construction call (post-order, spec §4.3). -/
def encodeShape (t : PlanShape) (f : Factory) : Factory :=
  match t with
  | .scan tbl => constructScan f tbl
  | .values rows cols => constructValues f rows cols
  | .sort c => constructSort (encodeShape c f)

/-- The finished factory state for a plan shape, as `PlanGist()` reads
it: buffer (the pre-base64 gist bytes) plus accumulated hash. -/
def gistOf (t : PlanShape) : Factory := encodeShape t newPlanGistFactory

/-- The bytes a shape contributes to the output buffer. -/
def bufStream : PlanShape → List Nat
  | .scan tbl => opByte .scanOp :: putVarint (toInt64 tbl.id)
  | .values rows cols =>
      opByte .valuesOp :: (putVarint (rows.length : Int) ++
        putVarint (cols.length : Int))
  | .sort c => bufStream c ++ [opByte .sortOp]

/-- The bytes a shape feeds to the hash: identical to `bufStream` except
that a scan feeds the table name instead of the table id. -/
def hashStream : PlanShape → List Nat
  | .scan tbl => opByte .scanOp :: tbl.name
  | .values rows cols =>
      opByte .valuesOp :: (putVarint (rows.length : Int) ++
        putVarint (cols.length : Int))
  | .sort c => hashStream c ++ [opByte .sortOp]

theorem fnvFold_cons (h b : Nat) (l : List Nat) :
    fnvFold h (b :: l) = fnvFold (fnvAdd h b) l := rfl

theorem encodeShape_eq (t : PlanShape) (f : Factory) :
    encodeShape t f =
      { buffer := f.buffer ++ bufStream t,
        hash := fnvFold f.hash (hashStream t) } := by
  induction t generalizing f with
  | scan tbl =>
    simp [encodeShape, constructScan, Factory.encodeOperator,
      Factory.encodeByte, Factory.write, Factory.writeHash,
      Factory.encodeDataSource, bufStream, hashStream, fnvFold]
  | values rows cols =>
    simp [encodeShape, constructValues, Factory.encodeOperator,
      Factory.encodeByte, Factory.write, Factory.writeHash,
      Factory.encodeRows, Factory.encodeResultColumns, Factory.encodeInt,
      bufStream, hashStream, fnvFold]
  | sort c ih =>
    simp [encodeShape, constructSort, Factory.encodeOperator,
      Factory.encodeByte, Factory.write, Factory.writeHash,
      Factory.encodeColumnOrdering, bufStream, hashStream, ih,
      fnvFold_append]

/-- Identity erasure: replace every referenced table id by 0, keeping
symbolic names and all other shape content. -/
def eraseIds : PlanShape → PlanShape
  | .scan tbl => .scan { id := 0, name := tbl.name }
  | .values rows cols => .values rows cols
  | .sort c => .sort (eraseIds c)

theorem hashStream_eraseIds (t : PlanShape) :
    hashStream (eraseIds t) = hashStream t := by
  induction t <;> simp [eraseIds, hashStream, *]

/-- A decode-time node (`explain.Node` as the gist decoder populates it):
operator tag, ordered children, and the decoded operator arguments. -/
inductive Node where
  | mk (op : execOperator) (children : List Node) (tbl : Option CatTable)
      (rows : List (List TypedExpr)) (cols : List ResultColumn) : Node

/-- Operator tag of a node. -/
def Node.op : Node → execOperator
  | .mk op _ _ _ _ => op

/-- Ordered children of a node. -/
def Node.children : Node → List Node
  | .mk _ cs _ _ _ => cs

/-- Decoded table reference of a node (`none` = unknown table). -/
def Node.tbl : Node → Option CatTable
  | .mk _ _ t _ _ => t

/-- The decoded plan (`explain.Plan`): root, checks, subquery roots. -/
structure Plan where
  Root : Node
  Checks : List Node
  Subqueries : List Node

/-- Runtime faults the decoder can raise: a slice access past the end
(`nodeStack[len-1]` on an empty stack) or `make` with a negative
length. -/
inductive RuntimeFault where
  | indexOutOfRange : RuntimeFault
  | makesliceLen : RuntimeFault
deriving DecidableEq, Repr

/-- A Go panic value observed at the decode boundary: either an error
value the decode code itself panicked with (an internally generated
decoding fault), or a fault raised by the language runtime. -/
inductive PanicVal where
  | goErr (e : DecErr) : PanicVal
  | runtime (r : RuntimeFault) : PanicVal
deriving DecidableEq, Repr

/-- Decode-side mutable state: the unread remainder of the buffer (the
read cursor over `f.buffer`) and the node stack (`f.nodeStack`).  Go
pushes and pops at the slice tail; the model pushes and pops at the
list head — the same LIFO discipline with the top at the head. -/
structure DState where
  rest : List Nat
  stack : List Node

/-- Result of one decode step: a value with the updated state, or a
panic unwinding towards the decode boundary. -/
inductive DRes (α : Type) where
  | ok (a : α) (s : DState) : DRes α
  | panicked (p : PanicVal) : DRes α

/-- `decodeInt`: `binary.ReadVarint` on the buffer; the Go code panics
with the read error on failure. -/
def decodeInt (s : DState) : DRes Int :=
  match readVarint s.rest with
  | .error e => .panicked (.goErr e)
  | .ok (v, rest) => .ok v { s with rest := rest }

/-- `decodeID`: `cat.StableID(f.decodeInt())`. -/
def decodeID (s : DState) : DRes Nat :=
  match decodeInt s with
  | .panicked p => .panicked p
  | .ok v s2 => .ok (toUint64 v) s2

/-- `decodeTable`: read the id and resolve it through the catalog; a
resolution failure yields `none` after the id bytes are consumed (the
plan will display an unknown table). -/
def decodeTable (cat : Catalog) (s : DState) : DRes (Option CatTable) :=
  match decodeID s with
  | .panicked p => .panicked p
  | .ok id s2 => .ok (cat id) s2

/-- `decodeIndex`: read the id; for a nil table return `none` after
consuming the id, otherwise linearly search the table's indexes for a
matching id (`none` when absent). -/
def decodeIndex (tbl : Option CatTable) (s : DState) : DRes (Option CatIndex) :=
  match decodeID s with
  | .panicked p => .panicked p
  | .ok id s2 =>
    match tbl with
    | none => .ok none s2
    | some t => .ok (t.indexes.find? (fun ix => ix.id == id)) s2

/-- `decodeRows`: read the count and return that many zero-valued rows
(Go `make([][]tree.TypedExpr, numRows)`); a negative count is a runtime
`makeslice` fault. -/
def decodeRows (s : DState) : DRes (List (List TypedExpr)) :=
  match decodeInt s with
  | .panicked p => .panicked p
  | .ok v s2 =>
    if v < 0 then .panicked (.runtime .makesliceLen)
    else .ok (List.replicate v.toNat []) s2

/-- `decodeResultColumns`: read the count and return that many
zero-valued result columns. -/
def decodeResultColumns (s : DState) : DRes (List ResultColumn) :=
  match decodeInt s with
  | .panicked p => .panicked p
  | .ok v s2 =>
    if v < 0 then .panicked (.runtime .makesliceLen)
    else .ok (List.replicate v.toNat { info := 0 }) s2

/-- `decodeNodeColumnOrdinals`: read the count and return that many zero
ordinals. -/
def decodeNodeColumnOrdinals (s : DState) : DRes (List NodeColumnOrdinal) :=
  match decodeInt s with
  | .panicked p => .panicked p
  | .ok v s2 =>
    if v < 0 then .panicked (.runtime .makesliceLen)
    else .ok (List.replicate v.toNat (0 : Int)) s2

/-- `popChild`: take the top of the node stack; on an empty stack the Go
slice access `f.nodeStack[l-1]` raises a runtime index-out-of-range
fault. -/
def popChild (s : DState) : DRes Node :=
  match s.stack with
  | [] => .panicked (.runtime .indexOutOfRange)
  | n :: rest => .ok n { s with stack := rest }

/-- Modelled from the spec: the generated `decodeOperatorBody` — for each
opcode read exactly the payload its paired encode step wrote, pop as
many children as the operator's arity requires, and build the node.  An
opcode outside the registry is an error, panicked by `decodeOp`. -/
def decodeOperatorBody (cat : Catalog) (b : Nat) (s : DState) : DRes Node :=
  match opOfByte b with
  | none => .panicked (.goErr (.unknownOperator b))
  | some .unknownOp => .panicked (.goErr (.unknownOperator b))
  | some .scanOp =>
    match decodeTable cat s with
    | .panicked p => .panicked p
    | .ok tbl s2 => .ok (.mk .scanOp [] tbl [] []) s2
  | some .valuesOp =>
    match decodeRows s with
    | .panicked p => .panicked p
    | .ok rows s2 =>
      match decodeResultColumns s2 with
      | .panicked p => .panicked p
      | .ok cols s3 => .ok (.mk .valuesOp [] none rows cols) s3
  | some .sortOp =>
    match popChild s with
    | .panicked p => .panicked p
    | .ok c s2 => .ok (.mk .sortOp [c] none [] []) s2
  | some .errorIfRowsOp =>
    match popChild s with
    | .panicked p => .panicked p
    | .ok c s2 => .ok (.mk .errorIfRowsOp [c] none [] []) s2

/-- `decodeOp`: read one opcode byte — end of buffer or an explicit zero
is the sentinel `unknownOp` (nothing pushed) — otherwise decode the
operator body, panicking on its error, and push the node. -/
def decodeOp (cat : Catalog) (s : DState) : DRes execOperator :=
  match s.rest with
  | [] => .ok .unknownOp s
  | b :: rest =>
    if b = 0 then .ok .unknownOp { s with rest := rest }
    else
      match decodeOperatorBody cat b { s with rest := rest } with
      | .panicked p => .panicked p
      | .ok n s2 => .ok n.op { s2 with stack := n :: s2.stack }

theorem readVarint_consumes {bs : List Nat} {v : Int} {rest : List Nat}
    (h : readVarint bs = .ok (v, rest)) : rest.length < bs.length := by
  unfold readVarint at h
  split at h
  · exact absurd h (by simp)
  · rename_i u r heq
    rw [Except.ok.injEq, Prod.mk.injEq] at h
    obtain ⟨-, h2⟩ := h
    subst h2
    exact readUvarintAux_consumes _ _ _ _ _ _ heq

theorem decodeInt_consumes {s : DState} {v : Int} {s2 : DState}
    (h : decodeInt s = .ok v s2) : s2.rest.length < s.rest.length := by
  unfold decodeInt at h
  split at h
  · exact absurd h (by simp)
  · rename_i v2 rest heq
    rw [DRes.ok.injEq] at h
    obtain ⟨-, h2⟩ := h
    subst h2
    exact readVarint_consumes heq

theorem popChild_rest {s : DState} {n : Node} {s2 : DState}
    (h : popChild s = .ok n s2) : s2.rest = s.rest := by
  unfold popChild at h
  split at h
  · exact absurd h (by simp)
  · rw [DRes.ok.injEq] at h
    obtain ⟨-, h2⟩ := h
    subst h2
    rfl

theorem decodeID_consumes {s : DState} {v : Nat} {s2 : DState}
    (h : decodeID s = .ok v s2) : s2.rest.length < s.rest.length := by
  unfold decodeID at h
  split at h
  · exact absurd h (by simp)
  · rename_i v2 s3 heq
    rw [DRes.ok.injEq] at h
    obtain ⟨-, h2⟩ := h
    subst h2
    exact decodeInt_consumes heq

theorem decodeTable_consumes {cat : Catalog} {s : DState} {t : Option CatTable}
    {s2 : DState} (h : decodeTable cat s = .ok t s2) :
    s2.rest.length < s.rest.length := by
  unfold decodeTable at h
  split at h
  · exact absurd h (by simp)
  · rename_i v2 s3 heq
    rw [DRes.ok.injEq] at h
    obtain ⟨-, h2⟩ := h
    subst h2
    exact decodeID_consumes heq

theorem decodeRows_consumes {s : DState} {rows : List (List TypedExpr)}
    {s2 : DState} (h : decodeRows s = .ok rows s2) :
    s2.rest.length < s.rest.length := by
  unfold decodeRows at h
  split at h
  · exact absurd h (by simp)
  · rename_i v2 s3 heq
    split_ifs at h
    rw [DRes.ok.injEq] at h
    obtain ⟨-, h2⟩ := h
    subst h2
    exact decodeInt_consumes heq

theorem decodeResultColumns_consumes {s : DState} {cols : List ResultColumn}
    {s2 : DState} (h : decodeResultColumns s = .ok cols s2) :
    s2.rest.length < s.rest.length := by
  unfold decodeResultColumns at h
  split at h
  · exact absurd h (by simp)
  · rename_i v2 s3 heq
    split_ifs at h
    rw [DRes.ok.injEq] at h
    obtain ⟨-, h2⟩ := h
    subst h2
    exact decodeInt_consumes heq

theorem decodeOperatorBody_rest_le {cat : Catalog} {b : Nat} {s : DState}
    {n : Node} {s2 : DState} (h : decodeOperatorBody cat b s = .ok n s2) :
    s2.rest.length ≤ s.rest.length := by
  unfold decodeOperatorBody at h
  split at h
  · exact absurd h (by simp)
  · exact absurd h (by simp)
  · split at h
    · exact absurd h (by simp)
    · rename_i tbl s3 heq
      rw [DRes.ok.injEq] at h
      obtain ⟨-, h2⟩ := h
      subst h2
      exact Nat.le_of_lt (decodeTable_consumes heq)
  · split at h
    · exact absurd h (by simp)
    · rename_i rows s3 heq
      split at h
      · exact absurd h (by simp)
      · rename_i cols s4 heq2
        rw [DRes.ok.injEq] at h
        obtain ⟨-, h2⟩ := h
        subst h2
        exact Nat.le_of_lt (Nat.lt_trans (decodeResultColumns_consumes heq2)
          (decodeRows_consumes heq))
  · split at h
    · exact absurd h (by simp)
    · rename_i c s3 heq
      rw [DRes.ok.injEq] at h
      obtain ⟨-, h2⟩ := h
      subst h2
      rw [popChild_rest heq]
  · split at h
    · exact absurd h (by simp)
    · rename_i c s3 heq
      rw [DRes.ok.injEq] at h
      obtain ⟨-, h2⟩ := h
      subst h2
      rw [popChild_rest heq]

theorem decodeOp_consumes {cat : Catalog} {s : DState} {op : execOperator}
    {s2 : DState} (h : decodeOp cat s = .ok op s2) (hop : op ≠ .unknownOp) :
    s2.rest.length < s.rest.length := by
  unfold decodeOp at h
  split at h
  · rw [DRes.ok.injEq] at h
    exact absurd h.1.symm hop
  · rename_i b rest heq
    split_ifs at h
    · rw [DRes.ok.injEq] at h
      exact absurd h.1.symm hop
    · split at h
      · exact absurd h (by simp)
      · rename_i n2 s3 hbody
        rw [DRes.ok.injEq] at h
        obtain ⟨-, h2⟩ := h
        subst h2
        have hle := decodeOperatorBody_rest_le hbody
        simp only [heq]
        simp at hle ⊢
        omega

/-- The main decode loop of `DecodePlanGistToPlan`: read operators until
the sentinel; a freshly decoded `errorIfRowsOp` node is popped into the
checks list instead of staying a plan-tree operand. -/
def decodeLoop (cat : Catalog) (s : DState) (checks : List Node) :
    DRes (List Node) :=
  match h : decodeOp cat s with
  | .panicked p => .panicked p
  | .ok op s2 =>
    if hop : op = .unknownOp then .ok checks s2
    else if op = .errorIfRowsOp then
      match hp : popChild s2 with
      | .panicked p => .panicked p
      | .ok n s3 => decodeLoop cat s3 (checks ++ [n])
    else decodeLoop cat s2 checks
termination_by s.rest.length
decreasing_by
  · rw [popChild_rest hp]
    exact decodeOp_consumes h hop
  · exact decodeOp_consumes h hop

/-- Errors returned normally by `DecodePlanGistToPlan`. -/
inductive GistError where
  | versionMismatch (v : Int) : GistError
  | decodeFault (e : DecErr) : GistError
deriving DecidableEq, Repr

/-- The outcome of `DecodePlanGistToPlan`: a returned plan, a returned
error, or an uncaught panic crossing the decode boundary and
terminating the caller. -/
inductive Outcome where
  | ok (p : Plan) : Outcome
  | err (e : GistError) : Outcome
  | fatal (p : PanicVal) : Outcome

/-- The result of the body of `DecodePlanGistToPlan` before the deferred
recover runs: a normal return, a returned error, or a panic in flight. -/
inductive RawResult where
  | ok (p : Plan) : RawResult
  | ret (e : GistError) : RawResult
  | panicked (p : PanicVal) : RawResult

/-- The body of `DecodePlanGistToPlan` (on gist bytes; the base64
presentation layer is not modelled): read the version varint and gate
on it, run the decode loop, pop the root, and expose the remaining
stack entries as subquery roots.  Go iterates the leftover `nodeStack`
bottom-up, which is the reverse of the head-top stack model. -/
def rawDecode (cat : Catalog) (bs : List Nat) : RawResult :=
  match decodeInt { rest := bs, stack := [] } with
  | .panicked p => .panicked p
  | .ok ver s =>
    if ver ≠ version then .ret (.versionMismatch ver)
    else
      match decodeLoop cat s [] with
      | .panicked p => .panicked p
      | .ok checks s2 =>
        match popChild s2 with
        | .panicked p => .panicked p
        | .ok root s3 =>
          .ok { Root := root, Checks := checks,
                Subqueries := s3.stack.reverse }

/-- Modelled from the spec: `errorutil.ShouldCatch` at the deferred
recover — error values panicked by the decode code itself are
recognized internally generated decoding faults and are returned;
anything else (a runtime fault) is not recognized and is re-raised. -/
def shouldCatch : PanicVal → Option DecErr
  | .goErr e => some e
  | .runtime _ => none

/-- `DecodePlanGistToPlan` over gist bytes: run the body under the
deferred recover, converting recognized panics into returned errors and
re-raising unrecognized ones. -/
def decodePlanGistToPlan (cat : Catalog) (bs : List Nat) : Outcome :=
  match rawDecode cat bs with
  | .ok p => .ok p
  | .ret e => .err e
  | .panicked p =>
    match shouldCatch p with
    | some e => .err (.decodeFault e)
    | none => .fatal p

theorem decodeLoop_panic {cat : Catalog} {s : DState} {p : PanicVal}
    (checks : List Node) (h : decodeOp cat s = .panicked p) :
    decodeLoop cat s checks = .panicked p := by
  rw [decodeLoop]
  split
  · rename_i p2 heq
    rw [h] at heq
    rw [DRes.panicked.injEq] at heq
    rw [heq]
  · rename_i op s2 heq
    rw [h] at heq
    exact absurd heq (by simp)

theorem decodeLoop_done {cat : Catalog} {s s2 : DState}
    (checks : List Node) (h : decodeOp cat s = .ok .unknownOp s2) :
    decodeLoop cat s checks = .ok checks s2 := by
  rw [decodeLoop]
  split
  · rename_i p heq
    rw [h] at heq
    exact absurd heq (by simp)
  · rename_i op s3 heq
    rw [h, DRes.ok.injEq] at heq
    obtain ⟨e1, e2⟩ := heq
    subst e1
    subst e2
    rfl

theorem decodeLoop_push {cat : Catalog} {s s2 : DState} {op : execOperator}
    (checks : List Node) (h : decodeOp cat s = .ok op s2)
    (h1 : op ≠ .unknownOp) (h2 : op ≠ .errorIfRowsOp) :
    decodeLoop cat s checks = decodeLoop cat s2 checks := by
  rw [decodeLoop]
  split
  · rename_i p heq
    rw [h] at heq
    exact absurd heq (by simp)
  · rename_i op2 s3 heq
    rw [h, DRes.ok.injEq] at heq
    obtain ⟨e1, e2⟩ := heq
    subst e1
    subst e2
    rw [dif_neg h1, if_neg h2]

theorem decodeLoop_check {cat : Catalog} {s s2 s3 : DState} {n : Node}
    (checks : List Node) (h : decodeOp cat s = .ok .errorIfRowsOp s2)
    (hp : popChild s2 = .ok n s3) :
    decodeLoop cat s checks = decodeLoop cat s3 (checks ++ [n]) := by
  rw [decodeLoop]
  split
  · rename_i p heq
    rw [h] at heq
    exact absurd heq (by simp)
  · rename_i op2 s4 heq
    rw [h, DRes.ok.injEq] at heq
    obtain ⟨e1, e2⟩ := heq
    subst e1
    subst e2
    rw [dif_neg (by simp), if_pos rfl]
    split
    · rename_i p heq2
      rw [hp] at heq2
      exact absurd heq2 (by simp)
    · rename_i n2 s5 heq2
      rw [hp, DRes.ok.injEq] at heq2
      obtain ⟨e3, e4⟩ := heq2
      subst e3
      subst e4
      rfl

theorem toUint64_toInt64 {u : Nat} (h : u < 2 ^ 64) :
    toUint64 (toInt64 u) = u := by
  unfold toUint64 toInt64
  split <;> omega

theorem zigzag_toInt64_lt {u : Nat} (h : u < 2 ^ 64) :
    zigzag (toInt64 u) < 2 ^ 64 := by
  unfold zigzag toInt64
  split_ifs <;> omega

theorem zigzag_natCast_lt {n : Nat} (h : n < 2 ^ 63) :
    zigzag (n : Int) < 2 ^ 64 := by
  unfold zigzag
  split_ifs <;> omega

/-- Shape wellformedness for round-trip statements: referenced ids fit in
`uint64` and list lengths fit in a nonnegative `int64`, as they always
do in the Go program. -/
def WF : PlanShape → Bool
  | .scan tbl => tbl.id < 2 ^ 64
  | .values rows cols => rows.length < 2 ^ 63 && cols.length < 2 ^ 63
  | .sort c => WF c

/-- The node the decoder reconstructs for a shape under a catalog. -/
def decNode (cat : Catalog) : PlanShape → Node
  | .scan tbl => .mk .scanOp [] (cat tbl.id) [] []
  | .values rows cols =>
      .mk .valuesOp [] none (List.replicate rows.length [])
        (List.replicate cols.length { info := 0 })
  | .sort c => .mk .sortOp [decNode cat c] none [] []

/-- Structural comparison: the node has the same opcode, arity and child
ordering as the original shape. -/
def matchesShape : Node → PlanShape → Bool
  | n, .scan _ => n.op == .scanOp && n.children.isEmpty
  | n, .values _ _ => n.op == .valuesOp && n.children.isEmpty
  | n, .sort c =>
    n.op == .sortOp &&
      match n.children with
      | [c2] => matchesShape c2 c
      | _ => false

theorem decNode_matches (cat : Catalog) (t : PlanShape) :
    matchesShape (decNode cat t) t = true := by
  induction t <;> simp [decNode, matchesShape, Node.op, Node.children, *]

theorem decodeOp_nil (cat : Catalog) (stack : List Node) :
    decodeOp cat (DState.mk [] stack) =
      .ok .unknownOp (DState.mk [] stack) := rfl

theorem decodeOp_zero (cat : Catalog) (rest : List Nat) (stack : List Node) :
    decodeOp cat (DState.mk (0 :: rest) stack) =
      .ok .unknownOp (DState.mk rest stack) := rfl

theorem decodeOp_scan {cat : Catalog} {tbl : TableRef} (hwf : tbl.id < 2 ^ 64)
    (rest : List Nat) (stack : List Node) :
    decodeOp cat
      (DState.mk (opByte .scanOp :: (putVarint (toInt64 tbl.id) ++ rest)) stack) =
      .ok .scanOp
        (DState.mk rest (Node.mk .scanOp [] (cat tbl.id) [] [] :: stack)) := by
  have hrt := readVarint_putVarint (toInt64 tbl.id) rest (zigzag_toInt64_lt hwf)
  simp [decodeOp, opByte, decodeOperatorBody, opOfByte, decodeTable, decodeID,
    decodeInt, hrt, Node.op, toUint64_toInt64 hwf]

theorem decodeOp_values {cat : Catalog} {rn cn : Nat} (hr : rn < 2 ^ 63)
    (hc : cn < 2 ^ 63) (rest : List Nat) (stack : List Node) :
    decodeOp cat
      (DState.mk
        (opByte .valuesOp :: (putVarint (rn : Int) ++ (putVarint (cn : Int) ++ rest)))
        stack) =
      .ok .valuesOp
        (DState.mk rest
          (Node.mk .valuesOp [] none (List.replicate rn [])
            (List.replicate cn { info := 0 }) :: stack)) := by
  have h1 := readVarint_putVarint (rn : Int) (putVarint (cn : Int) ++ rest)
    (zigzag_natCast_lt hr)
  have h2 := readVarint_putVarint (cn : Int) rest (zigzag_natCast_lt hc)
  have hr0 : ¬((rn : Int) < 0) := by omega
  have hc0 : ¬((cn : Int) < 0) := by omega
  have hrt : ((rn : Int)).toNat = rn := by omega
  have hct : ((cn : Int)).toNat = cn := by omega
  simp [decodeOp, opByte, decodeOperatorBody, opOfByte, decodeRows,
    decodeResultColumns, decodeInt, h1, h2, hr0, hc0, hrt, hct, Node.op]

theorem decodeOp_sort (cat : Catalog) (rest : List Nat) (c : Node)
    (stack : List Node) :
    decodeOp cat (DState.mk (opByte .sortOp :: rest) (c :: stack)) =
      .ok .sortOp
        (DState.mk rest (Node.mk .sortOp [c] none [] [] :: stack)) := by
  simp [decodeOp, opByte, decodeOperatorBody, opOfByte, popChild, Node.op]

theorem decodeOp_errorIfRows (cat : Catalog) (rest : List Nat) (c : Node)
    (stack : List Node) :
    decodeOp cat (DState.mk (opByte .errorIfRowsOp :: rest) (c :: stack)) =
      .ok .errorIfRowsOp
        (DState.mk rest (Node.mk .errorIfRowsOp [c] none [] [] :: stack)) := by
  simp [decodeOp, opByte, decodeOperatorBody, opOfByte, popChild, Node.op]

theorem decodeLoop_records (cat : Catalog) (t : PlanShape)
    (hwf : WF t = true) : ∀ (rest : List Nat) (stack checks : List Node),
    decodeLoop cat (DState.mk (bufStream t ++ rest) stack) checks =
      decodeLoop cat (DState.mk rest (decNode cat t :: stack)) checks := by
  induction t with
  | scan tbl =>
    intro rest stack checks
    rw [bufStream, List.cons_append]
    exact decodeLoop_push checks
      (decodeOp_scan (by simpa [WF] using hwf) rest stack)
      (by simp) (by simp)
  | values rows cols =>
    intro rest stack checks
    rw [bufStream, List.cons_append, List.append_assoc]
    have hb : (WF (.values rows cols)) = true := hwf
    simp only [WF, Bool.and_eq_true, decide_eq_true_eq] at hb
    exact decodeLoop_push checks
      (decodeOp_values hb.1 hb.2 rest stack) (by simp) (by simp)
  | sort c ih =>
    intro rest stack checks
    rw [bufStream, List.append_assoc, List.singleton_append,
      ih (by simpa [WF] using hwf)]
    exact decodeLoop_push checks (decodeOp_sort cat rest (decNode cat c) stack)
      (by simp) (by simp)

theorem gistOf_buffer (t : PlanShape) :
    (gistOf t).buffer = putVarint version ++ bufStream t := by
  rw [gistOf, encodeShape_eq]
  simp [newPlanGistFactory, Factory.encodeInt, Factory.write, Factory.writeHash]

theorem gistOf_hash (t : PlanShape) :
    (gistOf t).hash =
      fnvFold (fnvFold fnvInit (putVarint version)) (hashStream t) := by
  rw [gistOf, encodeShape_eq]
  simp [newPlanGistFactory, Factory.encodeInt, Factory.write, Factory.writeHash]

theorem rawDecode_gist (cat : Catalog) (t : PlanShape) (hwf : WF t = true) :
    rawDecode cat (gistOf t).buffer =
      .ok (Plan.mk (decNode cat t) [] []) := by
  rw [gistOf_buffer]
  have hver : decodeInt (DState.mk (putVarint version ++ bufStream t) []) =
      .ok version (DState.mk (bufStream t) []) := by
    have hrt := readVarint_putVarint version (bufStream t)
      (by norm_num [zigzag, version])
    simp [decodeInt, hrt]
  have hloop : decodeLoop cat (DState.mk (bufStream t) []) [] =
      .ok [] (DState.mk [] [decNode cat t]) := by
    have h0 := decodeLoop_records cat t hwf [] [] []
    rw [List.append_nil] at h0
    rw [h0, decodeLoop_done [] (decodeOp_nil cat [decNode cat t])]
  simp only [version] at hver hloop
  simp [rawDecode, hver, hloop, popChild, version]

theorem toInt64_small {u : Nat} (h : u < 2 ^ 63) : toInt64 u = (u : Int) := by
  unfold toInt64
  rw [if_pos h]

theorem putVarint_small {i : Int} (h0 : 0 ≤ i) (h : i < 64) :
    putVarint i = [(2 * i).toNat] := by
  unfold putVarint
  have hz : zigzag i = (2 * i).toNat := by
    unfold zigzag
    rw [if_pos h0]
    omega
  rw [hz, putUvarint, dif_pos (by omega)]

theorem gistOf_scan_buffer {id : Nat} (h : id < 64) (name : List Nat) :
    (gistOf (.scan (TableRef.mk id name))).buffer = [2, 1, 2 * id] := by
  rw [gistOf_buffer]
  simp only [bufStream, version]
  rw [toInt64_small (by omega),
    putVarint_small (by norm_num) (by norm_num),
    putVarint_small (by positivity) (by exact_mod_cast h)]
  have : (2 * (id : Int)).toNat = 2 * id := by omega
  rw [this]
  norm_num [opByte]
  decide

theorem gistOf_sortScan_buffer {id : Nat} (h : id < 64) (name : List Nat) :
    (gistOf (.sort (.scan (TableRef.mk id name)))).buffer =
      [2, 1, 2 * id, 3] := by
  rw [gistOf_buffer]
  simp only [bufStream, version]
  rw [toInt64_small (by omega),
    putVarint_small (by norm_num) (by norm_num),
    putVarint_small (by positivity) (by exact_mod_cast h)]
  have : (2 * (id : Int)).toNat = 2 * id := by omega
  rw [this]
  norm_num [opByte]
  decide

/-- A catalog that resolves no id (every lookup fails). -/
def emptyCatalog : Catalog := fun _ => none

/-- Name bytes of the table "orders" from the spec's hash scenario. -/
def ordersName : List Nat := [111, 114, 100, 101, 114, 115]

/-- C1: two encodes of the same plan shape differing only in the numeric
ids of referenced tables (symbolic names identical) produce equal
hashes, while the buffers may differ — because `encodeDataSource` puts
only the varint id in the buffer and feeds only the name bytes to the
hash. -/
theorem c1_hash_id_independent :
    (∀ t1 t2 : PlanShape, eraseIds t1 = eraseIds t2 →
      (gistOf t1).hash = (gistOf t2).hash) ∧
    (∃ t1 t2 : PlanShape, eraseIds t1 = eraseIds t2 ∧
      (gistOf t1).buffer ≠ (gistOf t2).buffer) := by
  constructor
  · intro t1 t2 h
    rw [gistOf_hash, gistOf_hash, ← hashStream_eraseIds t1,
      ← hashStream_eraseIds t2, h]
  · refine ⟨.scan (TableRef.mk 5 ordersName), .scan (TableRef.mk 9 ordersName),
      rfl, ?_⟩
    rw [gistOf_scan_buffer (by norm_num) ordersName,
      gistOf_scan_buffer (by norm_num) ordersName]
    simp

/-- C1 witness: the two concrete "orders" catalogs of the spec scenario,
ids 5 and 9 — equal hashes. -/
theorem c1_witness :
    (gistOf (.scan (TableRef.mk 5 ordersName))).hash =
      (gistOf (.scan (TableRef.mk 9 ordersName))).hash :=
  c1_hash_id_independent.1 (.scan (TableRef.mk 5 ordersName))
    (.scan (TableRef.mk 9 ordersName)) rfl

/-- C3: a buffer whose leading varint is not the compiled-in version
fails with a reported version-mismatch error carrying only the version,
and the outcome is the same whatever bytes follow the version varint. -/
theorem c3_version_gate (cat : Catalog) (v : Int) (hne : v ≠ version) :
    (∀ (bs rest : List Nat), readVarint bs = .ok (v, rest) →
      decodePlanGistToPlan cat bs = .err (.versionMismatch v)) ∧
    (∀ (r1 r2 : List Nat), zigzag v < 2 ^ 64 →
      decodePlanGistToPlan cat (putVarint v ++ r1) =
        decodePlanGistToPlan cat (putVarint v ++ r2)) := by
  have hmain : ∀ (bs rest : List Nat), readVarint bs = .ok (v, rest) →
      decodePlanGistToPlan cat bs = .err (.versionMismatch v) := by
    intro bs rest hv
    simp [decodePlanGistToPlan, rawDecode, decodeInt, hv, hne]
  refine ⟨hmain, fun r1 r2 hz => ?_⟩
  rw [hmain _ _ (readVarint_putVarint v r1 hz),
    hmain _ _ (readVarint_putVarint v r2 hz)]

/-- C3 witness: version varint 2 (bytes `[4]`) followed by a junk byte is
rejected as a version mismatch under the empty catalog. -/
theorem c3_witness :
    (2 : Int) ≠ version ∧
    readVarint [4, 99] = .ok (2, [99]) ∧
    decodePlanGistToPlan emptyCatalog [4, 99] =
      .err (.versionMismatch 2) :=
  ⟨by decide, rfl,
    (c3_version_gate emptyCatalog 2 (by decide)).1 [4, 99] [99] rfl⟩

/-- C4 counterexample: encoding Scan(table id 5, name "t") inside Sort
yields exactly `[2, 1, 10, 3]` — version varint, SCAN_OP, varint 5,
SORT_OP — whose last byte is not the claimed 0x00 sentinel: the encoder
never writes a terminating sentinel byte. -/
theorem c4_counterexample :
    (gistOf (.sort (.scan (TableRef.mk 5 [116])))).buffer = [2, 1, 10, 3] ∧
    (gistOf (.sort (.scan (TableRef.mk 5 [116])))).buffer.getLast? ≠
      some 0 := by
  have hb := gistOf_sortScan_buffer (by norm_num : (5:Nat) < 64) [116]
  norm_num at hb
  rw [hb]
  simp

/-- C4 as amended: every gist buffer is the leading version varint
followed by the post-order operator records with no terminating
sentinel (the decoder treats end-of-buffer, or an explicit zero byte,
as the sentinel); the concrete Scan-inside-Sort encode is
`[version][SCAN_OP][varint 5][SORT_OP]` with no trailing 0x00. -/
theorem c4_amended :
    (∀ t : PlanShape, (gistOf t).buffer = putVarint version ++ bufStream t) ∧
    (gistOf (.sort (.scan (TableRef.mk 5 [116])))).buffer =
      [2, opByte .scanOp, 10, opByte .sortOp] := by
  refine ⟨gistOf_buffer, ?_⟩
  have hb := gistOf_sortScan_buffer (by norm_num : (5:Nat) < 64) [116]
  norm_num at hb
  rw [hb]
  norm_num [opByte]

/-- C6: every encoding primitive feeds the buffer and the rolling hash
through one write path — the hash is the incremental FNV64 fold of
exactly the bytes presented, and buffer bytes and hash bytes coincide
for every primitive except `encodeDataSource`, which appends the id
varint to the buffer while folding the name bytes into the hash. -/
theorem c6_write_path (f : Factory) (data : List Nat) (b : Nat) (bo : Bool)
    (i : Int) (op : execOperator) (id : Nat) (name : List Nat) :
    Factory.write f data =
      Factory.mk (f.buffer ++ data) (fnvFold f.hash data) ∧
    Factory.encodeByte f b =
      Factory.mk (f.buffer ++ [b]) (fnvFold f.hash [b]) ∧
    Factory.encodeBool f bo =
      Factory.mk (f.buffer ++ [if bo then 1 else 0])
        (fnvFold f.hash [if bo then 1 else 0]) ∧
    Factory.encodeInt f i =
      Factory.mk (f.buffer ++ putVarint i) (fnvFold f.hash (putVarint i)) ∧
    Factory.encodeOperator f op =
      Factory.mk (f.buffer ++ [opByte op]) (fnvFold f.hash [opByte op]) ∧
    Factory.encodeDataSource f id name =
      Factory.mk (f.buffer ++ putVarint (toInt64 id)) (fnvFold f.hash name) := by
  refine ⟨rfl, rfl, ?_, rfl, rfl, rfl⟩
  cases bo <;> rfl

/-- C8: package initialization aborts exactly when the live operator
count differs from the hard-coded literal 57, and the current count
(57) lets startup proceed. -/
theorem c8_init_guard :
    (∀ n : Nat, initAborts n = true ↔ n ≠ 57) ∧
    initAborts numOperators = false := by
  constructor
  · intro n
    simp [initAborts]
  · rfl

/-- C8 witness: a drifted count (58) aborts; the live count does not. -/
theorem c8_witness : initAborts 58 = true ∧ initAborts numOperators = false :=
  ⟨(c8_init_guard.1 58).2 (by decide), c8_init_guard.2⟩

/-- A catalog holding one table, id 5 named "t" with no indexes. -/
def tCatalog : Catalog :=
  fun id => if id = 5 then some (CatTable.mk [116] []) else none

/-- C2: encoding a plan tree through the gist factory and decoding the
resulting buffer under the same catalog returns exactly the expected
node tree, whose opcode sequence, per-node arity and child ordering
match the original tree; each opcode's decode routine consumed exactly
the bytes its paired encode routine wrote (nothing is left over and no
extra nodes appear). -/
theorem c2_roundtrip (cat : Catalog) (t : PlanShape) (hwf : WF t = true) :
    decodePlanGistToPlan cat (gistOf t).buffer =
      .ok (Plan.mk (decNode cat t) [] []) ∧
    matchesShape (decNode cat t) t = true := by
  refine ⟨?_, decNode_matches cat t⟩
  simp [decodePlanGistToPlan, rawDecode_gist cat t hwf]

/-- C2 witness: Scan(id 5, "t") under Sort round-trips under the catalog
that maps id 5 to table "t". -/
theorem c2_witness :
    WF (.sort (.scan (TableRef.mk 5 [116]))) = true ∧
    decodePlanGistToPlan tCatalog
        (gistOf (.sort (.scan (TableRef.mk 5 [116])))).buffer =
      .ok (Plan.mk
        (decNode tCatalog (.sort (.scan (TableRef.mk 5 [116])))) [] []) :=
  ⟨by decide,
    (c2_roundtrip tCatalog (.sort (.scan (TableRef.mk 5 [116])))
      (by decide)).1⟩

/-- C5: an encoded id the catalog cannot resolve decodes to a `none`
(unknown) marker after its bytes are consumed — for tables and for
indexes on a nil table — and the rest of the tree still decodes: the
whole gist of Sort(Scan(id)) decodes successfully with the scan's table
field `none` under any catalog that fails to resolve the id. -/
theorem c5_unknown_id (cat : Catalog) (id : Nat) (hid : id < 2 ^ 64)
    (hcat : cat id = none) (rest : List Nat) (stack : List Node)
    (name : List Nat) :
    decodeTable cat (DState.mk (putVarint (toInt64 id) ++ rest) stack) =
      .ok none (DState.mk rest stack) ∧
    decodeIndex none (DState.mk (putVarint (toInt64 id) ++ rest) stack) =
      .ok none (DState.mk rest stack) ∧
    decodePlanGistToPlan cat
        (gistOf (.sort (.scan (TableRef.mk id name)))).buffer =
      .ok (Plan.mk
        (Node.mk .sortOp [Node.mk .scanOp [] none [] []] none [] [])
        [] []) := by
  have hrt := readVarint_putVarint (toInt64 id) rest (zigzag_toInt64_lt hid)
  refine ⟨?_, ?_, ?_⟩
  · simp [decodeTable, decodeID, decodeInt, hrt, toUint64_toInt64 hid, hcat]
  · simp [decodeIndex, decodeID, decodeInt, hrt]
  · have hwf : WF (.sort (.scan (TableRef.mk id name))) = true := by
      simp only [WF, decide_eq_true_eq]
      omega
    have hr := rawDecode_gist cat (.sort (.scan (TableRef.mk id name))) hwf
    simp only [decNode, hcat] at hr
    simp [decodePlanGistToPlan, hr]

/-- C5 witness: id 5 under the empty catalog — id bytes consumed, `none`
markers substituted, whole tree still decodes. -/
theorem c5_witness :
    (5 : Nat) < 2 ^ 64 ∧ emptyCatalog 5 = none ∧
    decodePlanGistToPlan emptyCatalog
        (gistOf (.sort (.scan (TableRef.mk 5 [116])))).buffer =
      .ok (Plan.mk
        (Node.mk .sortOp [Node.mk .scanOp [] none [] []] none [] [])
        [] []) :=
  ⟨by decide, rfl,
    (c5_unknown_id emptyCatalog 5 (by decide) rfl [7] [] [116]).2.2⟩

/-- C7: a panic inside `DecodePlanGistToPlan` recognized as an internally
generated decoding fault is converted into a normally returned error,
and any unrecognized panic is re-raised to terminate the caller — never
masked as a returned error. -/
theorem c7_recover_boundary (cat : Catalog) (bs : List Nat) (p : PanicVal)
    (h : rawDecode cat bs = .panicked p) :
    (∀ e : DecErr, shouldCatch p = some e →
      decodePlanGistToPlan cat bs = .err (.decodeFault e)) ∧
    (shouldCatch p = none → decodePlanGistToPlan cat bs = .fatal p) := by
  constructor
  · intro e he
    simp [decodePlanGistToPlan, h, he]
  · intro he
    simp [decodePlanGistToPlan, h, he]

/-- C7 witness: the empty buffer panics an EOF read error (an internally
generated decoding fault), which comes back as a returned error. -/
theorem c7_witness :
    rawDecode emptyCatalog [] = .panicked (.goErr .eof) ∧
    shouldCatch (.goErr .eof) = some .eof ∧
    decodePlanGistToPlan emptyCatalog [] = .err (.decodeFault .eof) :=
  ⟨rfl, rfl,
    (c7_recover_boundary emptyCatalog [] (.goErr .eof) rfl).1 .eof rfl⟩

/-- C9: list-valued parameters are encoded as their element count only —
equal-length lists contribute identical bytes to buffer and hash
whatever their content, the bytes written are exactly the count varint
— and each paired decode returns a list of the decoded length whose
elements are the Go zero values. -/
theorem c9_lists_count_only (f : Factory) (o1 o2 : List NodeColumnOrdinal)
    (rc1 rc2 : List ResultColumn) (r1 r2 : List (List TypedExpr))
    (ho : o1.length = o2.length) (hc : rc1.length = rc2.length)
    (hr : r1.length = r2.length) (n : Nat) (hn : n < 2 ^ 63)
    (rest : List Nat) (stack : List Node) :
    (Factory.encodeNodeColumnOrdinals f o1 =
        Factory.encodeNodeColumnOrdinals f o2 ∧
      Factory.encodeResultColumns f rc1 = Factory.encodeResultColumns f rc2 ∧
      Factory.encodeRows f r1 = Factory.encodeRows f r2) ∧
    (Factory.encodeNodeColumnOrdinals f o1 =
        Factory.mk (f.buffer ++ putVarint (o1.length : Int))
          (fnvFold f.hash (putVarint (o1.length : Int))) ∧
      Factory.encodeResultColumns f rc1 =
        Factory.mk (f.buffer ++ putVarint (rc1.length : Int))
          (fnvFold f.hash (putVarint (rc1.length : Int))) ∧
      Factory.encodeRows f r1 =
        Factory.mk (f.buffer ++ putVarint (r1.length : Int))
          (fnvFold f.hash (putVarint (r1.length : Int)))) ∧
    (decodeNodeColumnOrdinals (DState.mk (putVarint (n : Int) ++ rest) stack) =
        .ok (List.replicate n (0 : Int)) (DState.mk rest stack) ∧
      decodeResultColumns (DState.mk (putVarint (n : Int) ++ rest) stack) =
        .ok (List.replicate n (ResultColumn.mk 0)) (DState.mk rest stack) ∧
      decodeRows (DState.mk (putVarint (n : Int) ++ rest) stack) =
        .ok (List.replicate n ([] : List TypedExpr)) (DState.mk rest stack)) := by
  have hrt := readVarint_putVarint (n : Int) rest (zigzag_natCast_lt hn)
  have h0 : ¬((n : Int) < 0) := by omega
  have ht : ((n : Int)).toNat = n := by omega
  refine ⟨⟨?_, ?_, ?_⟩, ⟨rfl, rfl, rfl⟩, ?_, ?_, ?_⟩
  · simp [Factory.encodeNodeColumnOrdinals, ho]
  · simp [Factory.encodeResultColumns, hc]
  · simp [Factory.encodeRows, hr]
  · simp [decodeNodeColumnOrdinals, decodeInt, hrt, h0, ht]
  · simp [decodeResultColumns, decodeInt, hrt, h0, ht]
  · simp [decodeRows, decodeInt, hrt, h0, ht]

/-- C9 witness: equal-length lists with different content encode
identically, and a count of 2 decodes to two zero values. -/
theorem c9_witness :
    ([[TypedExpr.mk 1], []] : List (List TypedExpr)).length =
      ([[], [TypedExpr.mk 9]] : List (List TypedExpr)).length ∧
    (2 : Nat) < 2 ^ 63 ∧
    Factory.encodeRows (Factory.mk [] 0) [[TypedExpr.mk 1], []] =
      Factory.encodeRows (Factory.mk [] 0) [[], [TypedExpr.mk 9]] ∧
    decodeRows (DState.mk (putVarint (2 : Int) ++ [5]) []) =
      .ok (List.replicate 2 ([] : List TypedExpr)) (DState.mk [5] []) :=
  ⟨rfl, by decide,
    (c9_lists_count_only (Factory.mk [] 0) [3] [3] [ResultColumn.mk 0]
      [ResultColumn.mk 0] [[TypedExpr.mk 1], []] [[], [TypedExpr.mk 9]]
      rfl rfl rfl 2 (by decide) [5] []).1.2.2,
    (c9_lists_count_only (Factory.mk [] 0) [3] [3] [ResultColumn.mk 0]
      [ResultColumn.mk 0] [[TypedExpr.mk 1], []] [[], [TypedExpr.mk 9]]
      rfl rfl rfl 2 (by decide) [5] []).2.2.2.2⟩

/-- C10: a gist whose bytes are exactly a matching version varint (no
operator records) drives the root extraction to pop an empty operand
stack — a runtime index-out-of-range fault, which `shouldCatch` does
not recognize, so it is re-raised to the caller instead of being
returned as an error. -/
theorem c10_empty_gist_fatal (cat : Catalog) (bs : List Nat)
    (h : readVarint bs = .ok (version, [])) :
    rawDecode cat bs = .panicked (.runtime .indexOutOfRange) ∧
    shouldCatch (.runtime .indexOutOfRange) = none ∧
    decodePlanGistToPlan cat bs = .fatal (.runtime .indexOutOfRange) := by
  have hloop : decodeLoop cat (DState.mk [] []) [] =
      .ok [] (DState.mk [] []) :=
    decodeLoop_done [] (decodeOp_nil cat [])
  have hraw : rawDecode cat bs = .panicked (.runtime .indexOutOfRange) := by
    simp [rawDecode, decodeInt, h, hloop, popChild, version]
  exact ⟨hraw, rfl, by simp [decodePlanGistToPlan, hraw, shouldCatch]⟩

/-- C10 witness: the one-byte buffer `[2]` is exactly the version-1
varint; decoding it crashes with the re-raised runtime fault. -/
theorem c10_witness :
    readVarint [2] = .ok (version, []) ∧
    decodePlanGistToPlan emptyCatalog [2] =
      .fatal (.runtime .indexOutOfRange) :=
  ⟨rfl, (c10_empty_gist_fatal emptyCatalog [2] rfl).2.2⟩
